import Mathlib

/-!
Verification of the alpha-channel extraction engine of `terminal-banana`
(`src/alpha.ts`): the local chroma-key engine `removeBackgroundLocal`
(with its corner-sampling background estimator and `parseColor`), and the
difference-matting engine `extractAlphaTwoPass`.

Modelling conventions:
* A raw RGBA buffer (a `Buffer` of bytes, 4 bytes per pixel, row-major)
  is modelled as a `List RGBA`; byte offset `i*4 + k` of the buffer is
  channel `k` of list entry `i`.
* JavaScript `number` arithmetic is modelled as exact real arithmetic;
  `Math.sqrt` is `Real.sqrt` and `Math.round` is Mathlib's `round`
  (both are `⌊x + 1/2⌋`, rounding halves up).
* A store `buf[o] = v` into a `Buffer` coerces via `ToUint8`, i.e. takes
  the value mod 256: modelled by `toUint8`.
* File decoding/encoding (sharp, PNG) is the external Codec collaborator;
  the engines here take and return in-memory images.
-/

/-- One RGBA pixel: four bytes of the raw buffer. -/
structure RGBA where
  r : ℕ
  g : ℕ
  b : ℕ
  a : ℕ
deriving DecidableEq, Inhabited

/-- An RGB color as produced by `parseColor` / corner estimation
(JS numbers, integer-valued). -/
structure RGB where
  r : ℤ
  g : ℤ
  b : ℤ
deriving DecidableEq, Inhabited

/-- A decoded raster image: `width`/`height` from sharp's `info`, and the
raw RGBA pixel buffer (one list entry per 4 buffer bytes). -/
structure RasterImage where
  width : ℕ
  height : ℕ
  data : List RGBA
deriving DecidableEq, Inhabited

/-- The typed failures the engine code can throw. -/
inductive AlphaError where
  | DimensionMismatch : AlphaError
  | InvalidColor : String → AlphaError
deriving DecidableEq

/-- `Buffer` byte store: JavaScript coerces the assigned number with
`ToUint8`, i.e. mod 256. -/
def toUint8 (z : ℤ) : ℕ := (z % 256).toNat

/-- The background-color option of `removeBackgroundLocal`:
`'white' | 'black' | 'auto' | string` (hex). -/
inductive BackgroundColor where
  | white : BackgroundColor
  | black : BackgroundColor
  | auto : BackgroundColor
  | hex : String → BackgroundColor
deriving DecidableEq

/-- `color.replace('#', '')`: JS `String.replace` with a string pattern
removes only the first occurrence. -/
def removeFirstHash : List Char → List Char
  | [] => []
  | c :: cs => if c = '#' then cs else c :: removeFirstHash cs

/-- Value of one hex digit, per the `[0-9a-fA-F]` character class. -/
def hexDigitVal (c : Char) : Option ℕ :=
  if '0' ≤ c ∧ c ≤ '9' then some (c.toNat - '0'.toNat)
  else if 'a' ≤ c ∧ c ≤ 'f' then some (c.toNat - 'a'.toNat + 10)
  else if 'A' ≤ c ∧ c ≤ 'F' then some (c.toNat - 'A'.toNat + 10)
  else none

/-- `parseColor` from `alpha.ts`: `'white'`/`'black'` map to the two pure
colors; anything else is stripped of its first `#`, must match
`^[0-9a-fA-F]{6}$`, and is parsed as three hex byte pairs. The string
`'auto'` never reaches `parseColor` in `removeBackgroundLocal`, but as a
plain string it would fail the regex. -/
def parseColor : BackgroundColor → Except AlphaError RGB
  | .white => .ok ⟨255, 255, 255⟩
  | .black => .ok ⟨0, 0, 0⟩
  | .auto => .error (.InvalidColor "auto")
  | .hex s =>
    match removeFirstHash s.toList with
    | [c0, c1, c2, c3, c4, c5] =>
      match hexDigitVal c0, hexDigitVal c1, hexDigitVal c2,
            hexDigitVal c3, hexDigitVal c4, hexDigitVal c5 with
      | some d0, some d1, some d2, some d3, some d4, some d5 =>
          .ok ⟨16 * d0 + d1, 16 * d2 + d3, 16 * d4 + d5⟩
      | _, _, _, _, _, _ => .error (.InvalidColor s)
    | _ => .error (.InvalidColor s)

/-- Squared color distance of a pixel from the background color:
`dr*dr + dg*dg + db*db` with `dr = r - bgColor.r` etc. -/
def distSquared (p : RGBA) (bg : RGB) : ℤ :=
  let dr : ℤ := (p.r : ℤ) - bg.r
  let dg : ℤ := (p.g : ℤ) - bg.g
  let db : ℤ := (p.b : ℤ) - bg.b
  dr * dr + dg * dg + db * db

/-- The per-pixel alpha of `removeBackgroundLocal` as a function of the
tolerance and the squared distance: `0` inside `toleranceSquared`, the
linear ramp `(sqrt(distSquared) - tolerance) / tolerance` up to
`doubleToleranceSquared = (2*tolerance)*(2*tolerance)`, else `1`. -/
noncomputable def localAlpha (tolerance : ℤ) (d2 : ℤ) : ℝ :=
  if d2 ≤ tolerance * tolerance then 0
  else if d2 ≤ (2 * tolerance) * (2 * tolerance) then
    (Real.sqrt (d2 : ℝ) - (tolerance : ℝ)) / (tolerance : ℝ)
  else 1

/-- The alpha byte stored by `data[offset + 3] = Math.round(alpha * 255)`. -/
noncomputable def localAlphaByte (tolerance : ℤ) (d2 : ℤ) : ℕ :=
  toUint8 (round (localAlpha tolerance d2 * 255))

/-- One iteration of the pixel loop of `removeBackgroundLocal`: RGB bytes
are read, only the alpha byte is overwritten. -/
noncomputable def processPixel (bg : RGB) (tolerance : ℤ) (p : RGBA) : RGBA :=
  { p with a := localAlphaByte tolerance (distSquared p bg) }

/-- The whole pixel loop of `removeBackgroundLocal` over the buffer
(`pixelCount = info.width * info.height` pixels, which under the codec
invariant is every entry of the list). -/
noncomputable def removeBackgroundLocalPixels (bg : RGB) (tolerance : ℤ)
    (data : List RGBA) : List RGBA :=
  data.map (processPixel bg tolerance)

/-- Background estimation from the four corner pixels: byte offsets `0`,
`(width-1)*4`, `(height-1)*width*4` and `((height-1)*width + (width-1))*4`
of the raw buffer, i.e. list entries `0`, `width-1`, `(height-1)*width`
and `(height-1)*width + (width-1)`; each channel is
`Math.round(sum / 4)`. -/
def estimateBgColor (width height : ℕ) (data : List RGBA) : RGB :=
  let c0 := data.getD 0 default
  let c1 := data.getD (width - 1) default
  let c2 := data.getD ((height - 1) * width) default
  let c3 := data.getD ((height - 1) * width + (width - 1)) default
  { r := round (((c0.r + c1.r + c2.r + c3.r : ℕ) : ℚ) / 4)
    g := round (((c0.g + c1.g + c2.g + c3.g : ℕ) : ℚ) / 4)
    b := round (((c0.b + c1.b + c2.b + c3.b : ℕ) : ℚ) / 4) }

/-- The options record of `removeBackgroundLocal`. -/
structure LocalOptions where
  bgColor : Option BackgroundColor := none
  tolerance : Option ℤ := none

/-- `removeBackgroundLocal` from `alpha.ts`: default tolerance 30 (there
is no range check on it); background from the corner estimator when the
option is absent or `'auto'`, else `parseColor`; then the per-pixel alpha
pass. -/
noncomputable def removeBackgroundLocal (img : RasterImage)
    (options : LocalOptions) : Except AlphaError RasterImage :=
  let tolerance := options.tolerance.getD 30
  match options.bgColor with
  | none =>
      let bg := estimateBgColor img.width img.height img.data
      .ok { img with data := removeBackgroundLocalPixels bg tolerance img.data }
  | some .auto =>
      let bg := estimateBgColor img.width img.height img.data
      .ok { img with data := removeBackgroundLocalPixels bg tolerance img.data }
  | some c =>
      match parseColor c with
      | .error e => .error e
      | .ok bg =>
          .ok { img with data := removeBackgroundLocalPixels bg tolerance img.data }

/-- The module constant of `extractAlphaTwoPass`: distance between pure
white `(255,255,255)` and pure black `(0,0,0)`, `sqrt(3 * 255 * 255)`. -/
noncomputable def bgDist : ℝ := Real.sqrt (3 * 255 * 255)

/-- Euclidean distance between the white-pass and black-pass RGB values
of one pixel. -/
noncomputable def pixelDist (pW pB : RGBA) : ℝ :=
  let drWB : ℝ := (pW.r : ℝ) - (pB.r : ℝ)
  let dgWB : ℝ := (pW.g : ℝ) - (pB.g : ℝ)
  let dbWB : ℝ := (pW.b : ℝ) - (pB.b : ℝ)
  Real.sqrt (drWB * drWB + dgWB * dgWB + dbWB * dbWB)

/-- The alpha of `extractAlphaTwoPass`: `1 - pixelDist / bgDist`, then
the two sequential clamps `if (alpha < 0) alpha = 0` and
`if (alpha > 1) alpha = 1` of the source. -/
noncomputable def diffAlpha (pW pB : RGBA) : ℝ :=
  let alpha0 := 1 - pixelDist pW pB / bgDist
  let alpha1 := if alpha0 < 0 then 0 else alpha0
  if 1 < alpha1 then 1 else alpha1

/-- One iteration of the pixel loop of `extractAlphaTwoPass`: color
recovery from the black pass guarded by `alpha > 0.01`, upper clamp
`Math.min(255, …)`, and the four `Math.round` buffer stores. -/
noncomputable def diffPixel (pW pB : RGBA) : RGBA :=
  let alpha := diffAlpha pW pB
  let rOut : ℝ := if 0.01 < alpha then (pB.r : ℝ) / alpha else 0
  let gOut : ℝ := if 0.01 < alpha then (pB.g : ℝ) / alpha else 0
  let bOut : ℝ := if 0.01 < alpha then (pB.b : ℝ) / alpha else 0
  { r := toUint8 (round (min 255 rOut))
    g := toUint8 (round (min 255 gOut))
    b := toUint8 (round (min 255 bOut))
    a := toUint8 (round (alpha * 255)) }

/-- `extractAlphaTwoPass` from `alpha.ts`: the only precondition check is
`dataWhite.length !== dataBlack.length` on the raw buffers (4 bytes per
pixel, so equivalently on the pixel lists); then the per-pixel loop over
`pixelCount = meta.width * meta.height` pixels of the white-pass
metadata. -/
noncomputable def extractAlphaTwoPass (imgOnWhite imgOnBlack : RasterImage) :
    Except AlphaError RasterImage :=
  if imgOnWhite.data.length ≠ imgOnBlack.data.length then
    .error .DimensionMismatch
  else
    .ok { width := imgOnWhite.width
          height := imgOnWhite.height
          data := (List.range (imgOnWhite.width * imgOnWhite.height)).map
            fun i => diffPixel (imgOnWhite.data.getD i default)
              (imgOnBlack.data.getD i default) }

/-! ### Shared helper lemmas -/

lemma distSquared_nonneg (p : RGBA) (bg : RGB) : 0 ≤ distSquared p bg := by
  have h1 := mul_self_nonneg ((p.r : ℤ) - bg.r)
  have h2 := mul_self_nonneg ((p.g : ℤ) - bg.g)
  have h3 := mul_self_nonneg ((p.b : ℤ) - bg.b)
  show 0 ≤ ((p.r : ℤ) - bg.r) * ((p.r : ℤ) - bg.r)
      + ((p.g : ℤ) - bg.g) * ((p.g : ℤ) - bg.g)
      + ((p.b : ℤ) - bg.b) * ((p.b : ℤ) - bg.b)
  linarith

lemma toUint8_eq_self (z : ℤ) (h0 : 0 ≤ z) (h1 : z < 256) : (toUint8 z : ℤ) = z := by
  unfold toUint8
  rw [Int.emod_eq_of_lt h0 h1, Int.toNat_of_nonneg h0]

lemma toUint8_le (z : ℤ) : toUint8 z ≤ 255 := by
  unfold toUint8
  have h1 : z % 256 < 256 := Int.emod_lt_of_pos z (by norm_num)
  omega

lemma round_byte_nonneg (a : ℝ) (h0 : 0 ≤ a) : 0 ≤ round (a * 255) := by
  have h := Int.floor_le_floor (a := (0 : ℝ)) (b := a * 255 + 1 / 2) (by nlinarith)
  simpa [round_eq] using h

lemma round_byte_le (a : ℝ) (h1 : a ≤ 1) : round (a * 255) ≤ 255 := by
  have h : a * 255 + 1 / 2 ≤ 255 + 1 / 2 := by nlinarith
  have h2 := Int.floor_le_floor h
  have h3 : (⌊(255 + 1 / 2 : ℝ)⌋ : ℤ) = 255 := by norm_num
  rw [round_eq]
  omega

lemma localAlpha_nonneg (t d2 : ℤ) (ht : 0 ≤ t) : 0 ≤ localAlpha t d2 := by
  unfold localAlpha
  split
  · exact le_refl 0
  · split
    · rename_i h1 h2
      push_neg at h1
      rcases eq_or_lt_of_le ht with ht0 | ht0
      · exfalso
        rw [← ht0] at h1 h2
        norm_num at h1 h2
        linarith
      · have htR : (0 : ℝ) < (t : ℝ) := by exact_mod_cast ht0
        have hle : ((t * t : ℤ) : ℝ) ≤ ((d2 : ℤ) : ℝ) := by exact_mod_cast h1.le
        have hs : (t : ℝ) ≤ Real.sqrt (d2 : ℝ) := by
          have h4 : Real.sqrt ((t : ℝ) ^ 2) ≤ Real.sqrt (d2 : ℝ) := by
            apply Real.sqrt_le_sqrt
            push_cast at hle ⊢
            nlinarith
          rwa [Real.sqrt_sq htR.le] at h4
        exact div_nonneg (by linarith) htR.le
    · norm_num

lemma localAlpha_le_one (t d2 : ℤ) (ht : 0 ≤ t) : localAlpha t d2 ≤ 1 := by
  unfold localAlpha
  split
  · norm_num
  · split
    · rename_i h1 h2
      push_neg at h1
      rcases eq_or_lt_of_le ht with ht0 | ht0
      · exfalso
        rw [← ht0] at h1 h2
        norm_num at h1 h2
        linarith
      · have htR : (0 : ℝ) < (t : ℝ) := by exact_mod_cast ht0
        have hs : Real.sqrt (d2 : ℝ) ≤ 2 * (t : ℝ) := by
          have h4 : Real.sqrt (d2 : ℝ) ≤ Real.sqrt ((2 * (t : ℝ)) ^ 2) := by
            apply Real.sqrt_le_sqrt
            have : ((d2 : ℤ) : ℝ) ≤ (((2 * t) * (2 * t) : ℤ) : ℝ) := by exact_mod_cast h2
            push_cast at this ⊢
            nlinarith
          rwa [Real.sqrt_sq (by linarith)] at h4
        rw [div_le_one htR]
        linarith
    · exact le_refl 1

lemma localAlphaByte_eq (t d2 : ℤ) (ht : 0 ≤ t) :
    (localAlphaByte t d2 : ℤ) = round (localAlpha t d2 * 255) := by
  unfold localAlphaByte
  exact toUint8_eq_self _ (round_byte_nonneg _ (localAlpha_nonneg t d2 ht))
    (lt_of_le_of_lt (round_byte_le _ (localAlpha_le_one t d2 ht)) (by norm_num))

lemma round_nat_div_four (s : ℕ) : round ((s : ℚ) / 4) = (((s + 2) / 4 : ℕ) : ℤ) := by
  rw [round_eq]
  have h : (s : ℚ) / 4 + 1 / 2 = ((s + 2 : ℕ) : ℚ) / ((4 : ℕ) : ℚ) := by
    push_cast
    ring
  rw [h, Rat.floor_natCast_div_natCast]
  exact (Int.natCast_div _ _).symm

lemma bgDist_pos : 0 < bgDist := Real.sqrt_pos.mpr (by norm_num)

lemma pixelDist_nonneg (pW pB : RGBA) : 0 ≤ pixelDist pW pB := Real.sqrt_nonneg _

lemma diffAlpha_eq_clamp (pW pB : RGBA) :
    diffAlpha pW pB = max 0 (min 1 (1 - pixelDist pW pB / bgDist)) := by
  unfold diffAlpha
  have h1 : 1 - pixelDist pW pB / bgDist ≤ 1 := by
    have h2 : 0 ≤ pixelDist pW pB / bgDist :=
      div_nonneg (pixelDist_nonneg pW pB) bgDist_pos.le
    linarith
  rcases lt_or_le (1 - pixelDist pW pB / bgDist) 0 with h | h
  · simp [h, not_lt.mpr h1, min_eq_right h1, le_of_lt h]
  · simp [not_lt.mpr h, not_lt.mpr h1, min_eq_right h1, max_eq_right h]

lemma diffAlpha_nonneg (pW pB : RGBA) : 0 ≤ diffAlpha pW pB := by
  rw [diffAlpha_eq_clamp]
  exact le_max_left 0 _

lemma diffAlpha_le_one (pW pB : RGBA) : diffAlpha pW pB ≤ 1 := by
  rw [diffAlpha_eq_clamp]
  exact max_le (by norm_num) (min_le_left 1 _)

lemma diffPixel_a (pW pB : RGBA) :
    (diffPixel pW pB).a = toUint8 (round (diffAlpha pW pB * 255)) := rfl

lemma diffPixel_r (pW pB : RGBA) :
    (diffPixel pW pB).r = toUint8 (round (min 255
      (if 0.01 < diffAlpha pW pB then (pB.r : ℝ) / diffAlpha pW pB else 0))) := rfl

lemma diffPixel_g (pW pB : RGBA) :
    (diffPixel pW pB).g = toUint8 (round (min 255
      (if 0.01 < diffAlpha pW pB then (pB.g : ℝ) / diffAlpha pW pB else 0))) := rfl

lemma diffPixel_b (pW pB : RGBA) :
    (diffPixel pW pB).b = toUint8 (round (min 255
      (if 0.01 < diffAlpha pW pB then (pB.b : ℝ) / diffAlpha pW pB else 0))) := rfl

lemma diffAlphaByte_cast (pW pB : RGBA) :
    (((diffPixel pW pB).a : ℕ) : ℤ) = round (diffAlpha pW pB * 255) := by
  rw [diffPixel_a]
  exact toUint8_eq_self _ (round_byte_nonneg _ (diffAlpha_nonneg pW pB))
    (lt_of_le_of_lt (round_byte_le _ (diffAlpha_le_one pW pB)) (by norm_num))

lemma alphaByte_mono (x y : ℝ) (h0 : 0 ≤ x) (h1 : y ≤ 1) (hxy : x ≤ y) :
    toUint8 (round (x * 255)) ≤ toUint8 (round (y * 255)) := by
  have hx0 : 0 ≤ round (x * 255) := round_byte_nonneg _ h0
  have hy1 : round (y * 255) ≤ 255 := round_byte_le _ h1
  have hr : round (x * 255) ≤ round (y * 255) := by
    rw [round_eq, round_eq]
    exact Int.floor_le_floor (by nlinarith)
  have e1 := toUint8_eq_self (round (x * 255)) hx0 (by omega)
  have e2 := toUint8_eq_self (round (y * 255)) (by omega) (by omega)
  omega

lemma getD_localPixels_rgb (bg : RGB) (tolerance : ℤ) (data : List RGBA) (i : ℕ) :
    ((removeBackgroundLocalPixels bg tolerance data).getD i default).r
        = (data.getD i default).r
    ∧ ((removeBackgroundLocalPixels bg tolerance data).getD i default).g
        = (data.getD i default).g
    ∧ ((removeBackgroundLocalPixels bg tolerance data).getD i default).b
        = (data.getD i default).b := by
  unfold removeBackgroundLocalPixels
  rw [List.getD_eq_getElem?_getD, List.getD_eq_getElem?_getD, List.getElem?_map]
  cases h : data[i]? <;> simp [processPixel]

/-! ### Claim theorems -/

/-- Claim C10: with tolerance 0, `toleranceSquared` and
`doubleToleranceSquared` are both 0, so the ramp branch that divides by
the tolerance is unreachable (it would need `0 < distSquared ≤ 0`), and
every pixel's alpha is exactly 0 (when `distSquared = 0`) or exactly 1
(when `distSquared > 0`): `removeBackgroundLocal` never divides by a
zero tolerance. -/
theorem localChromaKey_zero_tolerance_safe (p : RGBA) (bg : RGB) :
    localAlpha 0 (distSquared p bg) = if distSquared p bg = 0 then 0 else 1 := by
  by_cases h0 : distSquared p bg = 0
  · unfold localAlpha
    rw [if_pos h0, if_pos (by omega)]
  · have hpos : 0 < distSquared p bg := (distSquared_nonneg p bg).lt_of_ne (Ne.symm h0)
    unfold localAlpha
    rw [if_neg h0, if_neg (by omega), if_neg (by omega)]

/-- Claim C8: the local chroma-key engine is idempotent on alpha: running
the per-pixel pass a second time on its own output (whose RGB plane it
left unchanged) with the identical background and tolerance reproduces
exactly the same pixels; moreover the corner background estimate of the
output equals that of the input, so the `auto` path re-derives the same
background too. -/
theorem localChromaKey_idempotent (bg : RGB) (tolerance : ℤ) (data : List RGBA) :
    removeBackgroundLocalPixels bg tolerance
        (removeBackgroundLocalPixels bg tolerance data)
      = removeBackgroundLocalPixels bg tolerance data
    ∧ ∀ width height : ℕ,
        estimateBgColor width height (removeBackgroundLocalPixels bg tolerance data)
          = estimateBgColor width height data := by
  constructor
  · unfold removeBackgroundLocalPixels
    rw [List.map_map]
    apply List.map_congr_left
    intro p _
    rfl
  · intro width height
    obtain ⟨hr0, hg0, hb0⟩ := getD_localPixels_rgb bg tolerance data 0
    obtain ⟨hr1, hg1, hb1⟩ := getD_localPixels_rgb bg tolerance data (width - 1)
    obtain ⟨hr2, hg2, hb2⟩ := getD_localPixels_rgb bg tolerance data ((height - 1) * width)
    obtain ⟨hr3, hg3, hb3⟩ :=
      getD_localPixels_rgb bg tolerance data ((height - 1) * width + (width - 1))
    unfold estimateBgColor
    dsimp only
    rw [hr0, hg0, hb0, hr1, hg1, hb1, hr2, hg2, hb2, hr3, hg3, hb3]

lemma getD_localPixels_of_lt (bg : RGB) (tolerance : ℤ) (data : List RGBA)
    (i : ℕ) (hi : i < data.length) :
    (removeBackgroundLocalPixels bg tolerance data).getD i default
      = processPixel bg tolerance (data.getD i default) := by
  unfold removeBackgroundLocalPixels
  rw [List.getD_eq_getElem?_getD, List.getD_eq_getElem?_getD, List.getElem?_map,
    List.getElem?_eq_getElem hi]
  rfl

/-- Claim C6: for every background color and (nonnegative) tolerance, the
local chroma-key pass leaves the R, G and B bytes of every pixel exactly
as read from the input; only the alpha byte of each pixel is written, as
`Math.round(alpha * 255)`. -/
theorem localChromaKey_preserves_rgb (bg : RGB) (tolerance : ℤ) (data : List RGBA)
    (ht : 0 ≤ tolerance) (i : ℕ) (hi : i < data.length) :
    (removeBackgroundLocalPixels bg tolerance data).length = data.length
    ∧ ((removeBackgroundLocalPixels bg tolerance data).getD i default).r
        = (data.getD i default).r
    ∧ ((removeBackgroundLocalPixels bg tolerance data).getD i default).g
        = (data.getD i default).g
    ∧ ((removeBackgroundLocalPixels bg tolerance data).getD i default).b
        = (data.getD i default).b
    ∧ (((removeBackgroundLocalPixels bg tolerance data).getD i default).a : ℤ)
        = round (localAlpha tolerance (distSquared (data.getD i default) bg) * 255) := by
  obtain ⟨hr, hg, hb⟩ := getD_localPixels_rgb bg tolerance data i
  refine ⟨by simp [removeBackgroundLocalPixels], hr, hg, hb, ?_⟩
  rw [getD_localPixels_of_lt bg tolerance data i hi]
  show (localAlphaByte tolerance (distSquared (data.getD i default) bg) : ℤ) = _
  exact localAlphaByte_eq _ _ ht

theorem localChromaKey_preserves_rgb_witness :
    ((0 : ℤ) ≤ 30 ∧ 0 < [(⟨10, 20, 30, 40⟩ : RGBA)].length)
    ∧ ((removeBackgroundLocalPixels ⟨0, 0, 0⟩ 30 [⟨10, 20, 30, 40⟩]).length
          = [(⟨10, 20, 30, 40⟩ : RGBA)].length
        ∧ ((removeBackgroundLocalPixels ⟨0, 0, 0⟩ 30 [⟨10, 20, 30, 40⟩]).getD 0 default).r
            = (([(⟨10, 20, 30, 40⟩ : RGBA)]).getD 0 default).r
        ∧ ((removeBackgroundLocalPixels ⟨0, 0, 0⟩ 30 [⟨10, 20, 30, 40⟩]).getD 0 default).g
            = (([(⟨10, 20, 30, 40⟩ : RGBA)]).getD 0 default).g
        ∧ ((removeBackgroundLocalPixels ⟨0, 0, 0⟩ 30 [⟨10, 20, 30, 40⟩]).getD 0 default).b
            = (([(⟨10, 20, 30, 40⟩ : RGBA)]).getD 0 default).b
        ∧ (((removeBackgroundLocalPixels ⟨0, 0, 0⟩ 30 [⟨10, 20, 30, 40⟩]).getD 0 default).a : ℤ)
            = round (localAlpha 30
                (distSquared (([(⟨10, 20, 30, 40⟩ : RGBA)]).getD 0 default) ⟨0, 0, 0⟩) * 255)) :=
  ⟨⟨by norm_num, by norm_num⟩,
    localChromaKey_preserves_rgb ⟨0, 0, 0⟩ 30 [⟨10, 20, 30, 40⟩] (by norm_num) 0 (by norm_num)⟩

/-- Claim C4: for a tolerance in `[1, 255]`, the local chroma-key alpha
byte is exactly 0 at `distSquared = toleranceSquared`, exactly 255 at
`distSquared = doubleToleranceSquared` (the ramp value there is exactly
1, so the rounding is exact), and the pre-rounding alpha
`(sqrt(distSquared) - tolerance) / tolerance` is strictly increasing in
`distSquared` on the band between the two thresholds. -/
theorem localChromaKey_ramp_band (t d2a d2b : ℤ) (ht1 : 1 ≤ t) (ht2 : t ≤ 255)
    (ha : t * t < d2a) (hab : d2a < d2b) (hb : d2b ≤ (2 * t) * (2 * t)) :
    localAlphaByte t (t * t) = 0
    ∧ localAlphaByte t ((2 * t) * (2 * t)) = 255
    ∧ localAlpha t d2a < localAlpha t d2b := by
  have htR : (0 : ℝ) < (t : ℝ) := by exact_mod_cast (by omega : (0 : ℤ) < t)
  refine ⟨?_, ?_, ?_⟩
  · have hval : localAlpha t (t * t) = 0 := by
      unfold localAlpha
      rw [if_pos le_rfl]
    unfold localAlphaByte
    rw [hval, zero_mul, round_zero]
    rfl
  · have hlt : t * t < (2 * t) * (2 * t) := by nlinarith
    have hval : localAlpha t ((2 * t) * (2 * t)) = 1 := by
      unfold localAlpha
      rw [if_neg (not_le.mpr hlt), if_pos le_rfl]
      have hsq : Real.sqrt (((2 * t) * (2 * t) : ℤ) : ℝ) = 2 * (t : ℝ) := by
        push_cast
        rw [show (2 * (t : ℝ)) * (2 * (t : ℝ)) = (2 * (t : ℝ)) ^ 2 by ring]
        exact Real.sqrt_sq (by linarith)
      rw [hsq]
      field_simp
      ring
    unfold localAlphaByte
    rw [hval, one_mul]
    have h255 : round ((255 : ℝ)) = 255 := by
      have := round_intCast (α := ℝ) 255
      exact_mod_cast this
    rw [h255]
    rfl
  · have h2a : ¬(d2a ≤ t * t) := not_le.mpr ha
    have h2b : ¬(d2b ≤ t * t) := not_le.mpr (lt_trans ha hab)
    have h4a : d2a ≤ (2 * t) * (2 * t) := le_of_lt (lt_of_lt_of_le hab hb)
    unfold localAlpha
    rw [if_neg h2a, if_pos h4a, if_neg h2b, if_pos hb]
    have h0 : (0 : ℤ) ≤ d2a := le_trans (mul_self_nonneg t) ha.le
    have hs : Real.sqrt (d2a : ℝ) < Real.sqrt (d2b : ℝ) :=
      Real.sqrt_lt_sqrt (by exact_mod_cast h0) (by exact_mod_cast hab)
    exact div_lt_div_of_pos_right (by linarith) htR

theorem localChromaKey_ramp_band_witness :
    ((1 : ℤ) ≤ 30 ∧ (30 : ℤ) ≤ 255 ∧ (30 : ℤ) * 30 < 1000 ∧ (1000 : ℤ) < 2000
      ∧ (2000 : ℤ) ≤ (2 * 30) * (2 * 30))
    ∧ (localAlphaByte 30 (30 * 30) = 0
        ∧ localAlphaByte 30 ((2 * 30) * (2 * 30)) = 255
        ∧ localAlpha 30 1000 < localAlpha 30 2000) :=
  ⟨⟨by norm_num, by norm_num, by norm_num, by norm_num, by norm_num⟩,
    localChromaKey_ramp_band 30 1000 2000 (by norm_num) (by norm_num) (by norm_num)
      (by norm_num) (by norm_num)⟩

/-- Claim C9: for every image with `width ≥ 1` and `height ≥ 1`, the
auto/unspecified-background path averages, per channel with
`Math.round(sum / 4)`, the RGB values of the four corner pixels at
row-major byte offsets `0`, `(width-1)*4`, `(height-1)*width*4` and
`((height-1)*width + (width-1))*4` (list entries `0`, `width-1`,
`(height-1)*width`, `(height-1)*width + (width-1)`); for whole-number
byte sums this rounding equals integer `(sum + 2) / 4`. -/
theorem bgEstimator_corner_average (width height : ℕ) (data : List RGBA)
    (_hw : 1 ≤ width) (_hh : 1 ≤ height) (_hlen : data.length = width * height) :
    estimateBgColor width height data
      = { r := ((((data.getD 0 default).r + (data.getD (width - 1) default).r
              + (data.getD ((height - 1) * width) default).r
              + (data.getD ((height - 1) * width + (width - 1)) default).r + 2) / 4 : ℕ) : ℤ)
          g := ((((data.getD 0 default).g + (data.getD (width - 1) default).g
              + (data.getD ((height - 1) * width) default).g
              + (data.getD ((height - 1) * width + (width - 1)) default).g + 2) / 4 : ℕ) : ℤ)
          b := ((((data.getD 0 default).b + (data.getD (width - 1) default).b
              + (data.getD ((height - 1) * width) default).b
              + (data.getD ((height - 1) * width + (width - 1)) default).b + 2) / 4 : ℕ) : ℤ) } := by
  unfold estimateBgColor
  dsimp only
  rw [RGB.mk.injEq]
  exact ⟨round_nat_div_four _, round_nat_div_four _, round_nat_div_four _⟩

theorem bgEstimator_corner_average_witness :
    ((1 : ℕ) ≤ 2 ∧ (1 : ℕ) ≤ 2
      ∧ ([(⟨10, 0, 0, 255⟩ : RGBA), ⟨20, 0, 0, 255⟩, ⟨30, 0, 0, 255⟩,
          ⟨41, 0, 0, 255⟩]).length = 2 * 2)
    ∧ estimateBgColor 2 2 [⟨10, 0, 0, 255⟩, ⟨20, 0, 0, 255⟩, ⟨30, 0, 0, 255⟩,
        ⟨41, 0, 0, 255⟩] = ⟨25, 0, 0⟩ :=
  ⟨⟨by norm_num, by norm_num, by decide⟩,
    (bgEstimator_corner_average 2 2
      [⟨10, 0, 0, 255⟩, ⟨20, 0, 0, 255⟩, ⟨30, 0, 0, 255⟩, ⟨41, 0, 0, 255⟩]
      (by norm_num) (by norm_num) (by decide)).trans (by decide)⟩

/-- Claim C3 counterexample: the source performs no tolerance validation
at all. A call with tolerance 300 (outside `[0, 255]`) does not fail with
any error; it processes the pixels with that tolerance (here one white
pixel on a white background becomes fully transparent). -/
theorem localChromaKey_tolerance_counterexample :
    removeBackgroundLocal ⟨1, 1, [⟨255, 255, 255, 255⟩]⟩
        { bgColor := some .white, tolerance := some 300 }
      = .ok ⟨1, 1, [⟨255, 255, 255, 0⟩]⟩ := by
  have hval : localAlpha 300 (distSquared ⟨255, 255, 255, 255⟩ ⟨255, 255, 255⟩) = 0 := by
    unfold localAlpha distSquared
    norm_num
  have hpix : processPixel ⟨255, 255, 255⟩ 300 (⟨255, 255, 255, 255⟩ : RGBA)
      = ⟨255, 255, 255, 0⟩ := by
    unfold processPixel localAlphaByte
    rw [hval, zero_mul, round_zero]
    rfl
  unfold removeBackgroundLocal
  simp only [Option.getD_some, parseColor]
  unfold removeBackgroundLocalPixels
  rw [List.map_singleton, hpix]

/-- Claim C3 amended: `removeBackgroundLocal` never validates the
tolerance; any integer tolerance, in range or not, is accepted and the
per-pixel pass runs with it (shown here on the auto-background path and
on an explicit `'white'` background). -/
theorem localChromaKey_no_tolerance_validation (img : RasterImage) (t : ℤ) :
    removeBackgroundLocal img { bgColor := none, tolerance := some t }
      = .ok ⟨img.width, img.height, removeBackgroundLocalPixels
              (estimateBgColor img.width img.height img.data) t img.data⟩
    ∧ removeBackgroundLocal img { bgColor := some .white, tolerance := some t }
      = .ok ⟨img.width, img.height,
              removeBackgroundLocalPixels ⟨255, 255, 255⟩ t img.data⟩ :=
  ⟨rfl, rfl⟩

lemma toUint8_natCast (n : ℕ) (h : n ≤ 255) : toUint8 (n : ℤ) = n := by
  unfold toUint8
  rw [Int.emod_eq_of_lt (by positivity) (by omega)]
  exact Int.toNat_natCast n

lemma round_le_255 (v : ℝ) (h : v ≤ 255) : round v ≤ 255 := by
  rw [round_eq]
  have h2 := Int.floor_le_floor (by linarith : v + 1 / 2 ≤ 255 + 1 / 2)
  have h3 : (⌊(255 + 1 / 2 : ℝ)⌋ : ℤ) = 255 := by norm_num
  omega

lemma round_nonneg_of_nonneg (v : ℝ) (h : 0 ≤ v) : 0 ≤ round v := by
  rw [round_eq]
  have h2 := Int.floor_le_floor (by linarith : (0 : ℝ) ≤ v + 1 / 2)
  simpa using h2

/-- Claim C1: the difference-matting engine writes the output alpha byte
as `round(clamp(1 - pixelDist / bgDist, 0, 1) * 255)` with
`bgDist = sqrt(3 * 255^2)`; in particular a pixel identical in both
passes (`pixelDist = 0`) gets alpha byte 255 and recovered RGB equal to
the black-pass pixel's RGB. -/
theorem diffMatting_alpha_formula (pW pB : RGBA)
    (hr : pB.r ≤ 255) (hg : pB.g ≤ 255) (hb : pB.b ≤ 255) :
    (((diffPixel pW pB).a : ℕ) : ℤ)
        = round (max 0 (min 1 (1 - pixelDist pW pB / Real.sqrt (3 * 255 ^ 2))) * 255)
    ∧ (pixelDist pW pB = 0 →
        (diffPixel pW pB).a = 255 ∧ (diffPixel pW pB).r = pB.r
          ∧ (diffPixel pW pB).g = pB.g ∧ (diffPixel pW pB).b = pB.b) := by
  have hbg : Real.sqrt (3 * 255 ^ 2) = bgDist := by
    unfold bgDist
    norm_num
  constructor
  · rw [diffAlphaByte_cast, diffAlpha_eq_clamp, hbg]
  · intro h0
    have halpha : diffAlpha pW pB = 1 := by
      rw [diffAlpha_eq_clamp, h0]
      norm_num
    have h255 : round ((255 : ℝ)) = (255 : ℤ) := by
      exact_mod_cast round_intCast (α := ℝ) 255
    refine ⟨?_, ?_, ?_, ?_⟩
    · rw [diffPixel_a, halpha, one_mul, h255]
      rfl
    · rw [diffPixel_r, halpha, if_pos (by norm_num : (0.01 : ℝ) < 1), div_one,
        min_eq_right (by exact_mod_cast hr : ((pB.r : ℕ) : ℝ) ≤ 255), round_natCast]
      exact toUint8_natCast _ hr
    · rw [diffPixel_g, halpha, if_pos (by norm_num : (0.01 : ℝ) < 1), div_one,
        min_eq_right (by exact_mod_cast hg : ((pB.g : ℕ) : ℝ) ≤ 255), round_natCast]
      exact toUint8_natCast _ hg
    · rw [diffPixel_b, halpha, if_pos (by norm_num : (0.01 : ℝ) < 1), div_one,
        min_eq_right (by exact_mod_cast hb : ((pB.b : ℕ) : ℝ) ≤ 255), round_natCast]
      exact toUint8_natCast _ hb

theorem diffMatting_alpha_formula_witness :
    ((⟨200, 100, 50, 255⟩ : RGBA).r ≤ 255 ∧ (⟨200, 100, 50, 255⟩ : RGBA).g ≤ 255
      ∧ (⟨200, 100, 50, 255⟩ : RGBA).b ≤ 255
      ∧ pixelDist ⟨200, 100, 50, 255⟩ ⟨200, 100, 50, 255⟩ = 0)
    ∧ ((((diffPixel ⟨200, 100, 50, 255⟩ ⟨200, 100, 50, 255⟩).a : ℕ) : ℤ)
        = round (max 0 (min 1 (1 - pixelDist ⟨200, 100, 50, 255⟩ ⟨200, 100, 50, 255⟩
            / Real.sqrt (3 * 255 ^ 2))) * 255)
      ∧ (pixelDist ⟨200, 100, 50, 255⟩ ⟨200, 100, 50, 255⟩ = 0 →
          (diffPixel ⟨200, 100, 50, 255⟩ ⟨200, 100, 50, 255⟩).a = 255
          ∧ (diffPixel ⟨200, 100, 50, 255⟩ ⟨200, 100, 50, 255⟩).r
              = (⟨200, 100, 50, 255⟩ : RGBA).r
          ∧ (diffPixel ⟨200, 100, 50, 255⟩ ⟨200, 100, 50, 255⟩).g
              = (⟨200, 100, 50, 255⟩ : RGBA).g
          ∧ (diffPixel ⟨200, 100, 50, 255⟩ ⟨200, 100, 50, 255⟩).b
              = (⟨200, 100, 50, 255⟩ : RGBA).b)) :=
  ⟨⟨by norm_num, by norm_num, by norm_num, by simp [pixelDist]⟩,
    diffMatting_alpha_formula ⟨200, 100, 50, 255⟩ ⟨200, 100, 50, 255⟩
      (by norm_num) (by norm_num) (by norm_num)⟩

/-- Claim C5: per pixel of the difference-matting engine, if the computed
alpha is at most 0.01 the output RGB is `(0, 0, 0)` with no division
performed (the recovery branch is skipped and the initializers 0 are
kept); if alpha exceeds 0.01 each output channel is
`round(min(255, blackPassChannel / alpha))`; and every output byte stays
in `[0, 255]` — near-zero alpha is never an error and never produces an
out-of-range byte. -/
theorem diffMatting_near_zero_guard (pW pB : RGBA) :
    (diffAlpha pW pB ≤ 0.01 →
      (diffPixel pW pB).r = 0 ∧ (diffPixel pW pB).g = 0 ∧ (diffPixel pW pB).b = 0)
    ∧ (0.01 < diffAlpha pW pB →
      (((diffPixel pW pB).r : ℕ) : ℤ) = round (min 255 ((pB.r : ℝ) / diffAlpha pW pB))
      ∧ (((diffPixel pW pB).g : ℕ) : ℤ) = round (min 255 ((pB.g : ℝ) / diffAlpha pW pB))
      ∧ (((diffPixel pW pB).b : ℕ) : ℤ) = round (min 255 ((pB.b : ℝ) / diffAlpha pW pB)))
    ∧ ((diffPixel pW pB).r ≤ 255 ∧ (diffPixel pW pB).g ≤ 255
      ∧ (diffPixel pW pB).b ≤ 255 ∧ (diffPixel pW pB).a ≤ 255) := by
  refine ⟨?_, ?_, ?_⟩
  · intro h
    have hn := not_lt.mpr h
    refine ⟨?_, ?_, ?_⟩
    · rw [diffPixel_r, if_neg hn, min_eq_right (by norm_num : (0 : ℝ) ≤ 255), round_zero]
      rfl
    · rw [diffPixel_g, if_neg hn, min_eq_right (by norm_num : (0 : ℝ) ≤ 255), round_zero]
      rfl
    · rw [diffPixel_b, if_neg hn, min_eq_right (by norm_num : (0 : ℝ) ≤ 255), round_zero]
      rfl
  · intro h
    have hpos : (0 : ℝ) < diffAlpha pW pB := lt_trans (by norm_num) h
    refine ⟨?_, ?_, ?_⟩
    · rw [diffPixel_r, if_pos h]
      exact toUint8_eq_self _
        (round_nonneg_of_nonneg _ (le_min (by norm_num)
          (div_nonneg (Nat.cast_nonneg _) hpos.le)))
        (lt_of_le_of_lt (round_le_255 _ (min_le_left _ _)) (by norm_num))
    · rw [diffPixel_g, if_pos h]
      exact toUint8_eq_self _
        (round_nonneg_of_nonneg _ (le_min (by norm_num)
          (div_nonneg (Nat.cast_nonneg _) hpos.le)))
        (lt_of_le_of_lt (round_le_255 _ (min_le_left _ _)) (by norm_num))
    · rw [diffPixel_b, if_pos h]
      exact toUint8_eq_self _
        (round_nonneg_of_nonneg _ (le_min (by norm_num)
          (div_nonneg (Nat.cast_nonneg _) hpos.le)))
        (lt_of_le_of_lt (round_le_255 _ (min_le_left _ _)) (by norm_num))
  · refine ⟨?_, ?_, ?_, ?_⟩
    · rw [diffPixel_r]
      exact toUint8_le _
    · rw [diffPixel_g]
      exact toUint8_le _
    · rw [diffPixel_b]
      exact toUint8_le _
    · rw [diffPixel_a]
      exact toUint8_le _

theorem diffMatting_near_zero_guard_witness :
    (0.01 : ℝ) < diffAlpha ⟨0, 0, 0, 0⟩ ⟨0, 0, 0, 0⟩
    ∧ ((((diffPixel ⟨0, 0, 0, 0⟩ ⟨0, 0, 0, 0⟩).r : ℕ) : ℤ)
        = round (min 255 (((⟨0, 0, 0, 0⟩ : RGBA).r : ℝ)
            / diffAlpha ⟨0, 0, 0, 0⟩ ⟨0, 0, 0, 0⟩))
      ∧ (((diffPixel ⟨0, 0, 0, 0⟩ ⟨0, 0, 0, 0⟩).g : ℕ) : ℤ)
        = round (min 255 (((⟨0, 0, 0, 0⟩ : RGBA).g : ℝ)
            / diffAlpha ⟨0, 0, 0, 0⟩ ⟨0, 0, 0, 0⟩))
      ∧ (((diffPixel ⟨0, 0, 0, 0⟩ ⟨0, 0, 0, 0⟩).b : ℕ) : ℤ)
        = round (min 255 (((⟨0, 0, 0, 0⟩ : RGBA).b : ℝ)
            / diffAlpha ⟨0, 0, 0, 0⟩ ⟨0, 0, 0, 0⟩))) := by
  have halpha : diffAlpha ⟨0, 0, 0, 0⟩ ⟨0, 0, 0, 0⟩ = 1 := by
    rw [diffAlpha_eq_clamp, show pixelDist (⟨0, 0, 0, 0⟩ : RGBA) ⟨0, 0, 0, 0⟩ = 0
      from by simp [pixelDist]]
    norm_num
  have h : (0.01 : ℝ) < diffAlpha ⟨0, 0, 0, 0⟩ ⟨0, 0, 0, 0⟩ := by
    rw [halpha]
    norm_num
  exact ⟨h, (diffMatting_near_zero_guard ⟨0, 0, 0, 0⟩ ⟨0, 0, 0, 0⟩).2.1 h⟩

/-- Claim C7: the difference-matting alpha byte is monotonically
non-increasing in `pixelDist`: a pixel pair with smaller or equal
`pixelDist` gets a greater or equal output alpha byte. -/
theorem diffMatting_alpha_monotone (pW1 pB1 pW2 pB2 : RGBA)
    (h : pixelDist pW1 pB1 ≤ pixelDist pW2 pB2) :
    (diffPixel pW2 pB2).a ≤ (diffPixel pW1 pB1).a := by
  rw [diffPixel_a, diffPixel_a]
  apply alphaByte_mono
  · exact diffAlpha_nonneg pW2 pB2
  · exact diffAlpha_le_one pW1 pB1
  · rw [diffAlpha_eq_clamp, diffAlpha_eq_clamp]
    apply max_le_max le_rfl
    apply min_le_min le_rfl
    have hd : pixelDist pW1 pB1 / bgDist ≤ pixelDist pW2 pB2 / bgDist :=
      (div_le_div_iff_of_pos_right bgDist_pos).mpr h
    linarith

theorem diffMatting_alpha_monotone_witness :
    pixelDist ⟨7, 7, 7, 7⟩ ⟨7, 7, 7, 7⟩ ≤ pixelDist ⟨255, 255, 255, 255⟩ ⟨0, 0, 0, 255⟩
    ∧ (diffPixel ⟨255, 255, 255, 255⟩ ⟨0, 0, 0, 255⟩).a
        ≤ (diffPixel ⟨7, 7, 7, 7⟩ ⟨7, 7, 7, 7⟩).a := by
  have h : pixelDist ⟨7, 7, 7, 7⟩ ⟨7, 7, 7, 7⟩
      ≤ pixelDist ⟨255, 255, 255, 255⟩ ⟨0, 0, 0, 255⟩ := by
    rw [show pixelDist (⟨7, 7, 7, 7⟩ : RGBA) ⟨7, 7, 7, 7⟩ = 0 from by simp [pixelDist]]
    exact pixelDist_nonneg _ _
  exact ⟨h, diffMatting_alpha_monotone ⟨7, 7, 7, 7⟩ ⟨7, 7, 7, 7⟩
    ⟨255, 255, 255, 255⟩ ⟨0, 0, 0, 255⟩ h⟩

/-- Claim C2 counterexample: the source compares raw buffer lengths, not
width/height. A 2×3 white-pass image and a 3×2 black-pass image differ
in both width and height, yet have equal buffer lengths (6 pixels each),
so `extractAlphaTwoPass` does not fail — it produces an output. -/
theorem diffMatting_dimension_counterexample :
    (⟨2, 3, List.replicate 6 ⟨0, 0, 0, 255⟩⟩ : RasterImage).width
        ≠ (⟨3, 2, List.replicate 6 ⟨0, 0, 0, 255⟩⟩ : RasterImage).width
    ∧ (⟨2, 3, List.replicate 6 ⟨0, 0, 0, 255⟩⟩ : RasterImage).height
        ≠ (⟨3, 2, List.replicate 6 ⟨0, 0, 0, 255⟩⟩ : RasterImage).height
    ∧ (extractAlphaTwoPass ⟨2, 3, List.replicate 6 ⟨0, 0, 0, 255⟩⟩
        ⟨3, 2, List.replicate 6 ⟨0, 0, 0, 255⟩⟩).isOk = true := by
  refine ⟨by norm_num, by norm_num, ?_⟩
  unfold extractAlphaTwoPass
  rw [if_neg (by simp)]
  rfl

/-- Claim C2 amended: `extractAlphaTwoPass` fails with
`DimensionMismatch` (and produces no output) exactly when the two
buffers' lengths — equivalently, under the codec invariant
`data.length = width * height`, the two pixel counts — differ; a
width/height mismatch with equal pixel count is not rejected, and when
the check passes the whole per-pixel loop output is produced. -/
theorem diffMatting_dimension_check (imgOnWhite imgOnBlack : RasterImage)
    (hW : imgOnWhite.data.length = imgOnWhite.width * imgOnWhite.height)
    (hB : imgOnBlack.data.length = imgOnBlack.width * imgOnBlack.height) :
    (extractAlphaTwoPass imgOnWhite imgOnBlack = .error .DimensionMismatch
      ↔ imgOnWhite.width * imgOnWhite.height ≠ imgOnBlack.width * imgOnBlack.height)
    ∧ (imgOnWhite.width * imgOnWhite.height = imgOnBlack.width * imgOnBlack.height →
        extractAlphaTwoPass imgOnWhite imgOnBlack
          = .ok ⟨imgOnWhite.width, imgOnWhite.height,
              (List.range (imgOnWhite.width * imgOnWhite.height)).map
                fun i => diffPixel (imgOnWhite.data.getD i default)
                  (imgOnBlack.data.getD i default)⟩) := by
  unfold extractAlphaTwoPass
  rw [hW, hB]
  by_cases hc : imgOnWhite.width * imgOnWhite.height
      = imgOnBlack.width * imgOnBlack.height
  · rw [if_neg (not_ne_iff.mpr hc)]
    refine ⟨⟨fun hcontra => Except.noConfusion hcontra, fun hne => absurd hc hne⟩, ?_⟩
    intro _
    rfl
  · rw [if_pos hc]
    exact ⟨⟨fun _ => hc, fun _ => rfl⟩, fun heq => absurd heq hc⟩

theorem diffMatting_dimension_check_witness :
    ((List.replicate 100 (⟨0, 0, 0, 255⟩ : RGBA)).length = 10 * 10
      ∧ (List.replicate 110 (⟨0, 0, 0, 255⟩ : RGBA)).length = 10 * 11)
    ∧ ((extractAlphaTwoPass ⟨10, 10, List.replicate 100 ⟨0, 0, 0, 255⟩⟩
          ⟨10, 11, List.replicate 110 ⟨0, 0, 0, 255⟩⟩ = .error .DimensionMismatch
        ↔ (10 : ℕ) * 10 ≠ 10 * 11)
      ∧ ((10 : ℕ) * 10 = 10 * 11 →
          extractAlphaTwoPass ⟨10, 10, List.replicate 100 ⟨0, 0, 0, 255⟩⟩
              ⟨10, 11, List.replicate 110 ⟨0, 0, 0, 255⟩⟩
            = .ok ⟨10, 10, (List.range (10 * 10)).map
                fun i => diffPixel ((List.replicate 100 ⟨0, 0, 0, 255⟩).getD i default)
                  ((List.replicate 110 ⟨0, 0, 0, 255⟩).getD i default)⟩)) :=
  ⟨⟨by simp, by simp⟩,
    diffMatting_dimension_check ⟨10, 10, List.replicate 100 ⟨0, 0, 0, 255⟩⟩
      ⟨10, 11, List.replicate 110 ⟨0, 0, 0, 255⟩⟩ (by simp) (by simp)⟩
